import Mathlib

/-!
# Verification of the Guardix scoring core

Shallow embedding of the algorithmic core of the Guardix security backend
(`GuardixBackend/python/app`): the federated-averaging aggregator, the
biometric matcher, the anomaly detectors, the intrusion scoring engine and
the phishing-scan boundary. Python floats are idealised as exact rationals
(`ℚ`) or reals (`ℝ`); where IEEE non-finite values (NaN, ±inf) matter, an
explicit extended-value type is used.
-/

namespace Guardix

/-! ## Federated aggregator (`app/services/federated.py`, `fedavg`)

`fedavg(weight_updates, weights)`:
  if not weight_updates: return []
  weights = [1]*n if weights is None
  weights = weights / (weights.sum() or 1.0)
  avg = (stacked * weights[:, None]).sum(axis=0)

The column sum `(stacked * weights[:, None]).sum(axis=0)` is, per output
coordinate `j`, the sum over clients `i` of `weights[i] * updates[i][j]`.
`np.stack` requires all updates to have equal length; the embedding reads
coordinate `j` with `getD _ 0`, which agrees with numpy whenever the
lengths are equal (the only case the code accepts). -/

/-- One output coordinate of `(stacked * weights[:, None]).sum(axis=0)`:
`Σᵢ ws[i] * us[i][j]`. -/
def colSum (ws : List ℚ) (us : List (List ℚ)) (j : ℕ) : ℚ :=
  ((ws.zip us).map (fun p => p.1 * p.2.getD j 0)).sum

/-- Implements `weights = weights / (weights.sum() or 1.0)`: normalize the weight list
by its sum; `or 1.0` is the float-falsy guard, so the divisor is `1` exactly
when the sum is `0`. -/
def normWeights (ws : List ℚ) : List ℚ :=
  ws.map (· / (if ws.sum = 0 then 1 else ws.sum))

/-- Implements `fedavg` from `app/services/federated.py`.  `weights? = none` models the
Python default `weights=None`. -/
def fedavg (weight_updates : List (List ℚ)) (weights? : Option (List ℚ)) : List ℚ :=
  if weight_updates = [] then []
  else
    (List.range ((weight_updates.headD []).length)).map
      (fun j =>
        colSum (normWeights (weights?.getD (List.replicate weight_updates.length 1)))
          weight_updates j)

/-! ## Intrusion scoring engine (`app/services/ids.py`, `IDSService.score`)

`score(traffic)`:
  if not traffic: return False, 0.0, []
  X = [[t.get("bytes_in",0), t.get("bytes_out",0), t.get("connections",0), t.get("failed_auth",0)] ...]
  scores = -model.score_samples(X)            # per-record, higher => more anomalous
  score = clip(scores.mean() / 10.0, 0.0, 1.0)
  alert = score > (0.55 if lite else 0.6)
  anomalies = [(i, s, traffic[i]) for i, s in enumerate(scores) if s > percentile(scores, 80)]

The fitted IsolationForest scores each record independently of the rest of
the batch, so `-model.score_samples` is modelled by an opaque per-row
function `decisionScore : List ℚ → ℚ` (negated at the call site, as in the
source). `np.percentile` uses linear interpolation between the two order
statistics bracketing rank `(n-1)*q/100`. -/

/-- One traffic record with the four fields read by `IDSService.score`
(missing dict keys default to `0` at the call site, so a total structure is
faithful). -/
structure TrafficRecord where
  bytes_in : ℚ
  bytes_out : ℚ
  connections : ℚ
  failed_auth : ℚ
deriving DecidableEq

/-- The feature row `[bytes_in, bytes_out, connections, failed_auth]`. -/
def recordRow (t : TrafficRecord) : List ℚ :=
  [t.bytes_in, t.bytes_out, t.connections, t.failed_auth]

/-- Ordered insertion, the auxiliary step of `sortQ`. -/
def insertQ (x : ℚ) : List ℚ → List ℚ
  | [] => [x]
  | y :: ys => if x ≤ y then x :: y :: ys else y :: insertQ x ys

/-- Sorting of the score list (numpy sorts before interpolating a
percentile; any comparison sort yields the same order statistics). -/
def sortQ : List ℚ → List ℚ
  | [] => []
  | x :: xs => insertQ x (sortQ xs)

/-- Implements `np.percentile(l, q)` with the default linear interpolation: rank
`pos = (n-1)*q/100`, result `s[⌊pos⌋] + (pos-⌊pos⌋)*(s[⌈pos⌉]-s[⌊pos⌋])` on
the sorted data. -/
def percentile (l : List ℚ) (q : ℚ) : ℚ :=
  (sortQ l).getD (⌊(((l.length : ℚ) - 1) * q / 100 : ℚ)⌋).toNat 0 +
    ((((l.length : ℚ) - 1) * q / 100) - ⌊(((l.length : ℚ) - 1) * q / 100 : ℚ)⌋) *
      ((sortQ l).getD (⌈(((l.length : ℚ) - 1) * q / 100 : ℚ)⌉).toNat 0 -
        (sortQ l).getD (⌊(((l.length : ℚ) - 1) * q / 100 : ℚ)⌋).toNat 0)

/-- Implements `IDSService.score`.  Returns `(alert, session_score, anomalies)`;
anomalies are `(index, score, record)` triples. -/
def idsScore (decisionScore : List ℚ → ℚ) (lite : Bool) (traffic : List TrafficRecord) :
    Bool × ℚ × List (ℕ × ℚ × TrafficRecord) :=
  if traffic = [] then (false, 0, [])
  else
    (decide ((if lite then (0.55 : ℚ) else 0.6) <
        min 1 (max 0 (((traffic.map (fun t => -(decisionScore (recordRow t)))).sum /
          ((traffic.map (fun t => -(decisionScore (recordRow t)))).length : ℚ)) / 10))),
     min 1 (max 0 (((traffic.map (fun t => -(decisionScore (recordRow t)))).sum /
       ((traffic.map (fun t => -(decisionScore (recordRow t)))).length : ℚ)) / 10)),
     ((traffic.map (fun t => -(decisionScore (recordRow t)))).enum.filter
        (fun p => decide (percentile (traffic.map (fun t => -(decisionScore (recordRow t)))) 80 < p.2))).map
       (fun p => (p.1, p.2, traffic.getD p.1 ⟨0, 0, 0, 0⟩)))

/-! ## Anomaly detectors (`app/services/anomaly.py`)

`BehaviorAnomalyService.score` and `SystemAnomalyService.score` have the
identical body:
  arr = np.array(metrics, dtype=float).reshape(1, -1)
  raw = float(self.model.decision_function(arr)[0])
  probability = float(1.0 / (1.0 + np.exp(-raw)))
  label = "anomaly" if raw < 0 else "normal"
The fitted one-class model (OneClassSVM resp. LocalOutlierFactor) is opaque
state: a trained dimensionality `dim` (5 for behavior, 4 for system) and a
decision function.  sklearn's `decision_function` validates the input
feature count against the trained model and raises `ValueError` on a
mismatch, before doing any computation; neither service method assigns to
the model, so the score call is modelled state-passing with the model
returned unchanged. -/

/-- Opaque fitted one-class model: trained feature count plus decision
function. Instances: behavior model (`dim = 5`), system model (`dim = 4`). -/
structure AnomalyModel where
  dim : ℕ
  decision : List ℝ → ℝ

/-- The error sklearn raises on a feature-count mismatch. -/
inductive ScoreError where
  | dimMismatch
deriving DecidableEq

/-- Implements `1.0 / (1.0 + np.exp(-raw))`. -/
noncomputable def sigmoid (x : ℝ) : ℝ := 1 / (1 + Real.exp (-x))

/-- The shared `score` body of both anomaly services, state-passing: the
result (or the dimensionality error from sklearn input validation) together
with the model after the call. -/
noncomputable def scoreAnomaly (m : AnomalyModel) (metrics : List ℝ) :
    Except ScoreError (String × ℝ × ℝ) × AnomalyModel :=
  if metrics.length = m.dim then
    (Except.ok
      ((if m.decision metrics < 0 then "anomaly" else "normal"),
        m.decision metrics, sigmoid (m.decision metrics)), m)
  else
    (Except.error ScoreError.dimMismatch, m)

/-! ## Biometric matcher (`app/services/biometric.py`)

`_feature_vector(sample)`:
  kt = np.array(sample.get("keystroke_timings", []) or [0.0])  # likewise tp, ti
  feats = [kt.mean(), kt.std() if kt.size > 1 else 0.0, ...]
  return np.nan_to_num(np.array(feats, dtype=float))

`BiometricService.verify(user_id, sample, threshold=None)`:
  threshold = 0.8 if profile == "lite" else 0.85, when None
  profile = store.get(user_id); if none, auto-enroll with this sample
  denom = (norm(mean) * norm(vec)) or 1e-6
  sim = dot(mean, vec) / denom
  return sim >= threshold, sim, threshold

This block idealises floats as reals; on finite real inputs `np.nan_to_num`
is the identity, so it is omitted here.  The IEEE non-finite path of
`_feature_vector` is modelled separately below (`featureVectorE`). -/

/-- A biometric sample: the three raw signal sequences read by
`_feature_vector` (a missing dict key yields `[]`, which the `or [0.0]`
default treats identically to an empty sequence). -/
structure BioSample where
  keystroke_timings : List ℝ
  touch_pressure : List ℝ
  touch_intervals : List ℝ

/-- Implements `sample.get(key, []) or [0.0]`: an empty (or missing) sequence becomes
`[0.0]`. -/
def orDefault (l : List ℝ) : List ℝ :=
  match l with
  | [] => [0]
  | _ => l

/-- Implements `np.mean`: sum divided by length. -/
noncomputable def listMean (l : List ℝ) : ℝ := l.sum / l.length

/-- Implements `np.std` (population): square root of the mean squared deviation. -/
noncomputable def listStd (l : List ℝ) : ℝ :=
  Real.sqrt ((l.map (fun x => (x - listMean l) ^ 2)).sum / l.length)

/-- Implements `_feature_vector` on (finite) real-valued samples. -/
noncomputable def featureVector (s : BioSample) : List ℝ :=
  [listMean (orDefault s.keystroke_timings),
   if 1 < (orDefault s.keystroke_timings).length then listStd (orDefault s.keystroke_timings) else 0,
   listMean (orDefault s.touch_pressure),
   if 1 < (orDefault s.touch_pressure).length then listStd (orDefault s.touch_pressure) else 0,
   listMean (orDefault s.touch_intervals),
   if 1 < (orDefault s.touch_intervals).length then listStd (orDefault s.touch_intervals) else 0]

/-- Implements `np.dot` on equal-length vectors: the sum of pointwise products. -/
def dotR (a b : List ℝ) : ℝ := ((a.zip b).map (fun p => p.1 * p.2)).sum

/-- Implements `np.linalg.norm`: Euclidean norm. -/
noncomputable def normR (a : List ℝ) : ℝ := Real.sqrt ((a.map (fun x => x ^ 2)).sum)

/-- Implements `sim = dot(mean, vec) / ((norm(mean) * norm(vec)) or 1e-6)`: the
float-falsy `or` makes the divisor `1e-6` exactly when the norm product is
`0`. -/
noncomputable def cosineSim (mean vec : List ℝ) : ℝ :=
  dotR mean vec / (if normR mean * normR vec = 0 then 1e-6 else normR mean * normR vec)

/-- The in-memory biometric profile store
(`MemoryStore.biometric_profiles`): user id to stored profile; the only
profile field ever written or read is `"mean"`, the enrolled feature
vector. -/
def BioStore : Type := String → Option (List ℝ)

/-- Implements `MemoryStore.set_biometric_profile`: overwrite one user's profile. -/
def setProfile (store : BioStore) (user : String) (profile : List ℝ) : BioStore :=
  fun u => if u = user then some profile else store u

/-- Default verify threshold: `0.8 if profile == "lite" else 0.85`. -/
noncomputable def defaultThreshold (lite : Bool) : ℝ := if lite then 0.8 else 0.85

/-- Implements `BiometricService.verify`, state-passing over the profile store.
Returns `((match, similarity, threshold_used), store after the call)`.  On
a missing profile it auto-enrolls the current sample (the stored mean and
the compared vector are then the same `_feature_vector(sample)`). -/
noncomputable def verify (store : BioStore) (user : String) (s : BioSample)
    (threshold? : Option ℝ) (lite : Bool) : (Bool × ℝ × ℝ) × BioStore :=
  match store user with
  | none =>
      ((decide (threshold?.getD (defaultThreshold lite) ≤ cosineSim (featureVector s) (featureVector s)),
        cosineSim (featureVector s) (featureVector s),
        threshold?.getD (defaultThreshold lite)),
       setProfile store user (featureVector s))
  | some mean =>
      ((decide (threshold?.getD (defaultThreshold lite) ≤ cosineSim mean (featureVector s)),
        cosineSim mean (featureVector s),
        threshold?.getD (defaultThreshold lite)),
       store)

/-- The store with no enrolled profiles. -/
def emptyStore : BioStore := fun _ => none

/-- A sample with all three sequences empty. -/
def zeroSample : BioSample := ⟨[], [], []⟩

/-- A sample with a single keystroke timing `1.0`. -/
def oneSample : BioSample := ⟨[1], [], []⟩

/-- A store holding one enrolled profile, for user `"bob"`. -/
def bobStore : BioStore :=
  fun u => if u = "bob" then some [1, 0, 0, 0, 0, 0] else none

/-! ## Phishing scan boundary (`app/routes/scan.py`, `scan_phishing`)

  if not (req.url or req.text): raise HTTPException(400)
  prob = phishing_service.score(req.url, req.text)
  return ...(probability=prob, is_phishing=prob >= 0.5, ...)

The classifier output is opaque (an arbitrary probability function of the
two optional inputs); the route logic under scrutiny is the guard and the
`is_phishing` boundary. -/

/-- Python truthiness of an optional string: `None` and `""` are falsy. -/
def truthyStr (o : Option String) : Bool :=
  match o with
  | none => false
  | some s => decide (s ≠ "")

/-- The phishing response fields that depend on the input. -/
structure PhishingScanResult where
  probability : ℚ
  is_phishing : Bool
deriving DecidableEq

/-- Implements `scan_phishing`: HTTP 400 when neither `url` nor `text` is truthy,
otherwise the classifier probability with `is_phishing = prob >= 0.5`. -/
def scanPhishing (score : Option String → Option String → ℚ)
    (url text : Option String) : Except ℕ PhishingScanResult :=
  if truthyStr url || truthyStr text then
    Except.ok ⟨score url text, decide ((1/2 : ℚ) ≤ score url text)⟩
  else
    Except.error 400

/-! ## Extended-value model of `_feature_vector`

`np.nan_to_num` with its default arguments replaces NaN with `0.0`, `+inf`
with the largest finite double (`1.7976931348623157e308`) and `-inf` with
its negation — it does NOT send infinities to `0`.  To settle the
non-finite clause of the spec, the sample values are modelled as extended
doubles: a finite real (exact, no rounding) or one of NaN, +inf, -inf, with
the IEEE-754 propagation rules for the operations `_feature_vector`
performs (sum, divide by the positive length, subtract, square, square
root). -/

/-- An extended double: finite (idealised exact), NaN, `+inf` or `-inf`. -/
inductive EF where
  | num : ℝ → EF
  | nan : EF
  | pinf : EF
  | ninf : EF

/-- IEEE negation. -/
def EF.neg : EF → EF
  | num a => num (-a)
  | nan => nan
  | pinf => ninf
  | ninf => pinf

/-- IEEE addition: NaN propagates; `+inf + -inf = NaN`; an infinity
absorbs finite addends. -/
noncomputable def EF.add : EF → EF → EF
  | nan, _ => nan
  | _, nan => nan
  | pinf, ninf => nan
  | ninf, pinf => nan
  | pinf, _ => pinf
  | _, pinf => pinf
  | ninf, _ => ninf
  | _, ninf => ninf
  | num a, num b => num (a + b)

/-- IEEE subtraction. -/
noncomputable def EF.sub (a b : EF) : EF := EF.add a (EF.neg b)

/-- IEEE multiplication: NaN propagates; `±inf * 0 = NaN`; otherwise signs
multiply. -/
noncomputable def EF.mul : EF → EF → EF
  | nan, _ => nan
  | _, nan => nan
  | pinf, pinf => pinf
  | pinf, ninf => ninf
  | ninf, pinf => ninf
  | ninf, ninf => pinf
  | pinf, num b => if 0 < b then pinf else if b < 0 then ninf else nan
  | num a, pinf => if 0 < a then pinf else if a < 0 then ninf else nan
  | ninf, num b => if 0 < b then ninf else if b < 0 then pinf else nan
  | num a, ninf => if 0 < a then ninf else if a < 0 then pinf else nan
  | num a, num b => num (a * b)

/-- Division by a list length, the only division `_feature_vector`
performs.  The length is never `0` (sequences are defaulted to `[0.0]`
first); the `0` case is given NaN's behaviour for totality. -/
noncomputable def EF.divNat : EF → ℕ → EF
  | _, 0 => nan
  | num a, n + 1 => num (a / (n + 1 : ℕ))
  | pinf, _ + 1 => pinf
  | ninf, _ + 1 => ninf
  | nan, _ + 1 => nan

/-- IEEE square root: NaN for NaN, negative finite values and `-inf`. -/
noncomputable def EF.sqrtE : EF → EF
  | num a => if a < 0 then nan else num (Real.sqrt a)
  | nan => nan
  | pinf => pinf
  | ninf => nan

/-- Implements `np.sum` over extended doubles. -/
noncomputable def EF.sumE (l : List EF) : EF := l.foldr EF.add (EF.num 0)

/-- Implements `np.mean` over extended doubles. -/
noncomputable def EF.meanE (l : List EF) : EF := EF.divNat (EF.sumE l) l.length

/-- Implements `np.std` (population) over extended doubles. -/
noncomputable def EF.stdE (l : List EF) : EF :=
  EF.sqrtE (EF.meanE (l.map (fun x => EF.mul (EF.sub x (EF.meanE l)) (EF.sub x (EF.meanE l)))))

/-- The largest finite IEEE double, `np.nan_to_num`'s default replacement
for `+inf`. -/
noncomputable def MAXFLOAT : ℝ := 1.7976931348623157e308

/-- Implements `np.nan_to_num` with default arguments: NaN to `0`, `+inf` to the
largest finite double, `-inf` to its negation, finite values unchanged. -/
noncomputable def nanToNum : EF → ℝ
  | EF.num a => a
  | EF.nan => 0
  | EF.pinf => MAXFLOAT
  | EF.ninf => -MAXFLOAT

/-- A biometric sample over extended doubles. -/
structure BioSampleE where
  keystroke_timings : List EF
  touch_pressure : List EF
  touch_intervals : List EF

/-- Implements `sample.get(key, []) or [0.0]` over extended doubles. -/
def orDefaultE (l : List EF) : List EF :=
  match l with
  | [] => [EF.num 0]
  | _ => l

/-- Implements `_feature_vector` over extended doubles: the six aggregate statistics
are computed first and `np.nan_to_num` is applied to the *results*. -/
noncomputable def featureVectorE (s : BioSampleE) : List ℝ :=
  [nanToNum (EF.meanE (orDefaultE s.keystroke_timings)),
   nanToNum (if 1 < (orDefaultE s.keystroke_timings).length then EF.stdE (orDefaultE s.keystroke_timings) else EF.num 0),
   nanToNum (EF.meanE (orDefaultE s.touch_pressure)),
   nanToNum (if 1 < (orDefaultE s.touch_pressure).length then EF.stdE (orDefaultE s.touch_pressure) else EF.num 0),
   nanToNum (EF.meanE (orDefaultE s.touch_intervals)),
   nanToNum (if 1 < (orDefaultE s.touch_intervals).length then EF.stdE (orDefaultE s.touch_intervals) else EF.num 0)]

/-- The claim's literal reading: every non-finite input value is replaced
by `0` *before* use. -/
def sanitize0 : EF → EF
  | EF.num a => EF.num a
  | _ => EF.num 0

/-- The per-sequence statistics pair `[mean, std]` of the spec sentence
(`std = 0` for at most one element), extracted to reals. -/
noncomputable def specStats2 (l : List EF) : List ℝ :=
  [nanToNum (EF.meanE l), nanToNum (if 1 < l.length then EF.stdE l else EF.num 0)]

/-- The feature vector as the claim literally states it: sequences
defaulted, every non-finite value replaced by `0` before the statistics are
taken. -/
noncomputable def featureVectorSpecLiteral (s : BioSampleE) : List ℝ :=
  specStats2 (orDefaultE (s.keystroke_timings.map sanitize0)) ++
    specStats2 (orDefaultE (s.touch_pressure.map sanitize0)) ++
      specStats2 (orDefaultE (s.touch_intervals.map sanitize0))

/-- The amended reading: the statistics are taken over the raw (possibly
non-finite) values and `np.nan_to_num`'s replacement is applied to the
aggregated results (NaN to `0`, `±inf` to `±MAXFLOAT`). -/
noncomputable def featureVectorSpecAmended (s : BioSampleE) : List ℝ :=
  specStats2 (orDefaultE s.keystroke_timings) ++
    specStats2 (orDefaultE s.touch_pressure) ++
      specStats2 (orDefaultE s.touch_intervals)

/-- A sample whose only datum is a keystroke timing of `+inf`. -/
def infSample : BioSampleE := ⟨[EF.pinf], [], []⟩

/-- Dividing every element of a list divides its sum. -/
theorem sum_map_div (l : List ℚ) (s : ℚ) : (l.map (fun x => x / s)).sum = l.sum / s := by
  induction l with
  | nil => simp
  | cons a t ih => simp [ih, add_div]

/-- A column sum with all-zero weights is zero. -/
theorem colSum_zero (ws : List ℚ) (us : List (List ℚ)) (j : ℕ)
    (h : ∀ w ∈ ws, w = 0) : colSum ws us j = 0 := by
  induction ws generalizing us with
  | nil => simp [colSum]
  | cons w t ih =>
    cases us with
    | nil => simp [colSum]
    | cons u vs =>
      have hw : w = 0 := h w (List.mem_cons_self _ _)
      have ht : ∀ x ∈ t, x = 0 := fun x hx => h x (List.mem_cons_of_mem _ hx)
      simpa [colSum, hw] using ih vs ht

/-- If every update equals `v` and there are at least as many updates as
weights, the column sum is `(Σ ws) * v[j]`. -/
theorem colSum_all_eq (v : List ℚ) (ws : List ℚ) (us : List (List ℚ)) (j : ℕ)
    (hlen : ws.length ≤ us.length) (hall : ∀ u ∈ us, u = v) :
    colSum ws us j = ws.sum * v.getD j 0 := by
  induction ws generalizing us with
  | nil => simp [colSum]
  | cons w t ih =>
    cases us with
    | nil => simp at hlen
    | cons u vs =>
      have hu : u = v := hall u (List.mem_cons_self _ _)
      have hvs : ∀ x ∈ vs, x = v := fun x hx => hall x (List.mem_cons_of_mem _ hx)
      have hlen' : t.length ≤ vs.length := by simpa using hlen
      simp only [colSum, List.zip_cons_cons, List.map_cons, List.sum_cons] at *
      rw [ih vs hlen' hvs, hu]
      ring

/-- Reading every index of a list back with `getD` reproduces the list. -/
theorem map_range_getD (v : List ℚ) :
    (List.range v.length).map (fun j => v.getD j 0) = v := by
  induction v with
  | nil => simp
  | cons a t ih =>
    rw [List.length_cons, List.range_succ_eq_map, List.map_cons, List.map_map]
    simp only [Function.comp_def, List.getD_cons_zero, List.getD_cons_succ]
    rw [ih]

/-- Claim C1, counterexample.  The claim states that with sample counts
summing to zero (for instance all counts `0`) the federated aggregate
equals the uniform mean, the same result as when counts are omitted.  At
`updates = [[1,2,3]]`, `counts = [0]` the code returns the zero vector
`[0,0,0]` (the float-falsy guard `weights.sum() or 1.0` divides the
all-zero weights by `1`, leaving them zero), while omitting the counts
returns the uniform mean `[1,2,3]`; the two disagree. -/
theorem fedavg_zero_counts_cex :
    fedavg [[1,2,3]] (some [0]) = [0,0,0] ∧
    fedavg [[1,2,3]] none = [1,2,3] ∧
    fedavg [[1,2,3]] (some [0]) ≠ fedavg [[1,2,3]] none := by
  refine ⟨?_, ?_, ?_⟩
  · norm_num [fedavg, normWeights, colSum, List.range_succ]
  · norm_num [fedavg, normWeights, colSum, List.range_succ]
  · intro h
    rw [show fedavg [[1,2,3]] (some [0]) = [0,0,0] by
          norm_num [fedavg, normWeights, colSum, List.range_succ],
        show fedavg [[1,2,3]] none = [1,2,3] by
          norm_num [fedavg, normWeights, colSum, List.range_succ]] at h
    exact absurd h (by norm_num)

/-- Claim C1, amended.  For every non-empty list of weight-update vectors
and sample counts that are all zero, the federated aggregate is the
all-zero vector of the first update's dimension — not the uniform mean
(which results only when the counts are omitted): each weight is
normalised by the fallback divisor `1` and stays `0`. -/
theorem fedavg_all_zero_counts (updates : List (List ℚ)) (counts : List ℚ)
    (hne : updates ≠ []) (hc : ∀ c ∈ counts, c = 0) :
    fedavg updates (some counts) = List.replicate (updates.headD []).length 0 := by
  have hs : counts.sum = 0 := List.sum_eq_zero hc
  have hz : ∀ w ∈ normWeights counts, w = 0 := by
    intro w hw
    rcases List.mem_map.mp hw with ⟨c, hc', rfl⟩
    simp [hc c hc']
  unfold fedavg
  rw [if_neg hne, Option.getD_some,
    List.map_congr_left (fun j _ => colSum_zero _ updates j hz)]
  simp

/-- Claim C1, witness: at `updates = [[1,2,3]]`, `counts = [0]` the
aggregate is the zero vector. -/
theorem fedavg_all_zero_counts_witness :
    fedavg [[1,2,3]] (some [0]) = List.replicate 3 (0 : ℚ) := by
  exact fedavg_all_zero_counts [[1,2,3]] [0] (by decide) (by simp)

/-- Claim C7: for every vector `v`, every non-empty list of updates all
equal to `v`, and strictly positive sample counts (one per update), the
federated aggregate returns `v` unchanged. -/
theorem fedavg_identical_updates (v : List ℚ) (updates : List (List ℚ)) (counts : List ℚ)
    (hne : updates ≠ []) (hv : ∀ u ∈ updates, u = v) (hlen : counts.length = updates.length)
    (hpos : ∀ c ∈ counts, 0 < c) :
    fedavg updates (some counts) = v := by
  have hcne : counts ≠ [] := by
    intro h
    apply hne
    cases updates with
    | nil => rfl
    | cons u t => simp [h] at hlen
  have hs : 0 < counts.sum := List.sum_pos counts hpos hcne
  have hhead : updates.headD [] = v := by
    cases updates with
    | nil => exact absurd rfl hne
    | cons u t => exact hv u (List.mem_cons_self _ _)
  have hlen' : (normWeights counts).length ≤ updates.length := by
    simp [normWeights, hlen]
  have hws : (normWeights counts).sum = 1 := by
    rw [normWeights, if_neg (ne_of_gt hs), sum_map_div, div_self (ne_of_gt hs)]
  unfold fedavg
  rw [if_neg hne, Option.getD_some,
    List.map_congr_left (fun j _ => colSum_all_eq v (normWeights counts) updates j hlen' hv),
    hws]
  simp only [one_mul, hhead]
  exact map_range_getD v

/-- Claim C7, witness: the spec's own examples,
`aggregate([[1,1],[1,1]], [3,7]) = [1,1]` and
`aggregate([[1,2,3]], [1]) = [1,2,3]`. -/
theorem fedavg_identical_updates_witness :
    fedavg [[1,1],[1,1]] (some [3,7]) = [1,1] ∧
    fedavg [[1,2,3]] (some [1]) = [1,2,3] := by
  constructor
  · exact fedavg_identical_updates [1,1] [[1,1],[1,1]] [3,7] (by decide)
      (by intro u hu; simp only [List.mem_cons, List.mem_singleton] at hu
          rcases hu with rfl | rfl | hu
          · rfl
          · rfl
          · exact absurd hu (List.not_mem_nil u))
      rfl
      (by intro c hc; simp only [List.mem_cons, List.mem_singleton] at hc
          rcases hc with rfl | rfl | hc
          · norm_num
          · norm_num
          · exact absurd hc (List.not_mem_nil c))
  · exact fedavg_identical_updates [1,2,3] [[1,2,3]] [1] (by decide)
      (by intro u hu; simp only [List.mem_singleton] at hu; exact hu)
      rfl
      (by intro c hc; simp only [List.mem_singleton] at hc; norm_num [hc])

/-- Insertion preserves length. -/
theorem insertQ_length (x : ℚ) (l : List ℚ) : (insertQ x l).length = l.length + 1 := by
  induction l with
  | nil => rfl
  | cons y ys ih =>
    by_cases h : x ≤ y <;> simp [insertQ, h, ih]

/-- Sorting preserves length. -/
theorem sortQ_length (l : List ℚ) : (sortQ l).length = l.length := by
  induction l with
  | nil => rfl
  | cons x xs ih => simp [sortQ, insertQ_length, ih]

/-- Membership after insertion. -/
theorem mem_insertQ (x y : ℚ) (l : List ℚ) : y ∈ insertQ x l ↔ y = x ∨ y ∈ l := by
  induction l with
  | nil => simp [insertQ]
  | cons z zs ih =>
    by_cases h : x ≤ z
    · simp only [insertQ, if_pos h, List.mem_cons]
    · simp only [insertQ, if_neg h, List.mem_cons, ih]
      tauto

/-- Sorting preserves membership. -/
theorem mem_sortQ (y : ℚ) (l : List ℚ) : y ∈ sortQ l ↔ y ∈ l := by
  induction l with
  | nil => simp [sortQ]
  | cons x xs ih => simp [sortQ, mem_insertQ, ih]

/-- Reading `getD` inside a list whose elements are all `c` yields `c`. -/
theorem getD_all_eq (l : List ℚ) (c : ℚ) (i : ℕ)
    (hall : ∀ x ∈ l, x = c) (hi : i < l.length) : l.getD i 0 = c := by
  induction l generalizing i with
  | nil => simp at hi
  | cons x xs ih =>
    cases i with
    | zero => simpa using hall x (List.mem_cons_self _ _)
    | succ j =>
      have hj : j < xs.length := by simpa using hi
      simpa using ih j (fun y hy => hall y (List.mem_cons_of_mem _ hy)) hj

/-- A percentile of a non-empty constant score list is that constant, for
any percentage in `[0, 100]`. -/
theorem percentile_const (l : List ℚ) (c q : ℚ) (hne : l ≠ [])
    (hall : ∀ x ∈ l, x = c) (hq0 : 0 ≤ q) (hq1 : q ≤ 100) :
    percentile l q = c := by
  have hn1 : 1 ≤ l.length := List.length_pos.mpr hne
  have hsall : ∀ x ∈ sortQ l, x = c := fun x hx => hall x ((mem_sortQ x l).mp hx)
  have hn0 : (0 : ℚ) ≤ (l.length : ℚ) - 1 := by
    rw [sub_nonneg]
    exact_mod_cast hn1
  have hpos0 : 0 ≤ ((l.length : ℚ) - 1) * q / 100 :=
    div_nonneg (mul_nonneg hn0 hq0) (by norm_num)
  have hposle : ((l.length : ℚ) - 1) * q / 100 ≤ (l.length : ℚ) - 1 := by
    rw [div_le_iff₀ (by norm_num : (0:ℚ) < 100)]
    calc ((l.length : ℚ) - 1) * q ≤ ((l.length : ℚ) - 1) * 100 :=
          mul_le_mul_of_nonneg_left hq1 hn0
      _ = ((l.length : ℚ) - 1) * 100 := rfl
  have hfl0 : 0 ≤ ⌊((l.length : ℚ) - 1) * q / 100⌋ := Int.floor_nonneg.mpr hpos0
  have hceil : ⌈((l.length : ℚ) - 1) * q / 100⌉ ≤ (l.length : ℤ) - 1 := by
    rw [Int.ceil_le]
    push_cast
    exact hposle
  have hflle : ⌊((l.length : ℚ) - 1) * q / 100⌋ ≤ (l.length : ℤ) - 1 :=
    le_trans (Int.floor_le_ceil _) hceil
  have hlt1 : (⌊((l.length : ℚ) - 1) * q / 100⌋).toNat < l.length := by
    have := Int.toNat_le.mpr (le_trans hflle (by omega : (l.length : ℤ) - 1 ≤ (l.length - 1 : ℕ)))
    omega
  have hlt2 : (⌈((l.length : ℚ) - 1) * q / 100⌉).toNat < l.length := by
    have := Int.toNat_le.mpr (le_trans hceil (by omega : (l.length : ℤ) - 1 ≤ (l.length - 1 : ℕ)))
    omega
  have h1 : (sortQ l).getD (⌊((l.length : ℚ) - 1) * q / 100⌋).toNat 0 = c :=
    getD_all_eq _ c _ hsall (by rw [sortQ_length]; exact hlt1)
  have h2 : (sortQ l).getD (⌈((l.length : ℚ) - 1) * q / 100⌉).toNat 0 = c :=
    getD_all_eq _ c _ hsall (by rw [sortQ_length]; exact hlt2)
  rw [percentile, h1, h2]
  ring

/-- The second components of `enumFrom` over a constant list are that
constant. -/
theorem enumFrom_snd_all_eq (c : ℚ) (l : List ℚ) (hall : ∀ x ∈ l, x = c) :
    ∀ n, ∀ p ∈ l.enumFrom n, p.2 = c := by
  induction l with
  | nil => intro n p hp; simp at hp
  | cons x xs ih =>
    intro n p hp
    simp only [List.enumFrom] at hp
    rcases List.mem_cons.mp hp with rfl | hp'
    · exact hall x (List.mem_cons_self _ _)
    · exact ih (fun y hy => hall y (List.mem_cons_of_mem _ hy)) (n + 1) p hp'

/-- Claim C4: for every non-empty traffic batch, the session score is the
mean per-record outlier score divided by the fixed scale constant `10` and
clamped into `[0,1]`, and the alert flag holds exactly when the session
score strictly exceeds `0.55` under the lite profile and `0.6` under the
standard profile. -/
theorem idsScore_session_and_alert (f : List ℚ → ℚ) (lite : Bool)
    (traffic : List TrafficRecord) (hne : traffic ≠ []) :
    (idsScore f lite traffic).2.1 =
      min 1 (max 0 (((traffic.map (fun t => -(f (recordRow t)))).sum /
        (traffic.length : ℚ)) / 10)) ∧
    ((idsScore f lite traffic).1 = true ↔
      (if lite then (0.55 : ℚ) else 0.6) < (idsScore f lite traffic).2.1) := by
  constructor
  · simp [idsScore, if_neg hne]
  · simp [idsScore, if_neg hne]

/-- Claim C4, witness: a single record whose outlier score is `5` yields a
session score `5 / 10 = 1/2` and no alert under the lite threshold
`0.55`. -/
theorem idsScore_session_and_alert_witness :
    (idsScore (fun _ => -5) true [⟨0,0,0,0⟩]).2.1 = 1/2 ∧
    ((idsScore (fun _ => -5) true [⟨0,0,0,0⟩]).1 = true ↔
      (0.55 : ℚ) < (idsScore (fun _ => -5) true [⟨0,0,0,0⟩]).2.1) := by
  have h := idsScore_session_and_alert (fun _ => -5) true [⟨0,0,0,0⟩] (by decide)
  constructor
  · rw [h.1]
    norm_num
  · simpa using h.2

/-- Claim C9: in every non-empty traffic batch in which all records get
the same per-record outlier score — in particular every single-record
batch — the anomalies list is empty: a record is flagged only when its
score strictly exceeds the batch's own 80th percentile, which for a
constant score list equals that constant. -/
theorem idsScore_uniform_scores_no_anomalies (f : List ℚ → ℚ) (lite : Bool)
    (traffic : List TrafficRecord) (c : ℚ) (hne : traffic ≠ [])
    (hc : ∀ t ∈ traffic, -(f (recordRow t)) = c) :
    (idsScore f lite traffic).2.2 = [] := by
  have hall : ∀ x ∈ traffic.map (fun t => -(f (recordRow t))), x = c := by
    intro x hx
    rcases List.mem_map.mp hx with ⟨t, ht, rfl⟩
    exact hc t ht
  have hne' : traffic.map (fun t => -(f (recordRow t))) ≠ [] := by
    simpa using hne
  have hp : percentile (traffic.map (fun t => -(f (recordRow t)))) 80 = c :=
    percentile_const _ c 80 hne' hall (by norm_num) (by norm_num)
  have henum : ∀ p ∈ (traffic.map (fun t => -(f (recordRow t)))).enum, p.2 = c := by
    intro p hp'
    exact enumFrom_snd_all_eq c _ hall 0 p hp'
  have hfilter :
      ((traffic.map (fun t => -(f (recordRow t)))).enum.filter
        (fun p => decide (percentile (traffic.map (fun t => -(f (recordRow t)))) 80 < p.2))) = [] := by
    rw [List.filter_eq_nil_iff]
    intro p hp'
    rw [hp, henum p hp']
    simp
  simp only [idsScore, if_neg hne]
  rw [hfilter]
  rfl

/-- Claim C9, witness: a single-record batch produces an empty anomalies
list. -/
theorem idsScore_uniform_scores_no_anomalies_witness :
    (idsScore (fun _ => 0) true [⟨0,0,0,0⟩]).2.2 = [] := by
  exact idsScore_uniform_scores_no_anomalies (fun _ => 0) true [⟨0,0,0,0⟩] 0
    (by decide) (by intro t ht; simp)

/-- Claim C3: for every fitted model (behavior and system detectors alike,
their `score` bodies being identical) and every input vector of the
trained dimensionality, `score` succeeds with
`probability = 1/(1+exp(-raw))` exactly, `probability` strictly between
`0` and `1`, and `label = "anomaly"` iff `raw < 0` (so `raw = 0` yields
`"normal"`), leaving the model unchanged. -/
theorem scoreAnomaly_ok (m : AnomalyModel) (metrics : List ℝ)
    (h : metrics.length = m.dim) :
    scoreAnomaly m metrics =
      (Except.ok ((if m.decision metrics < 0 then "anomaly" else "normal"),
        m.decision metrics, 1 / (1 + Real.exp (-(m.decision metrics)))), m) ∧
    0 < 1 / (1 + Real.exp (-(m.decision metrics))) ∧
    1 / (1 + Real.exp (-(m.decision metrics))) < 1 := by
  refine ⟨by simp [scoreAnomaly, if_pos h, sigmoid], ?_, ?_⟩
  · positivity
  · rw [div_lt_one (by positivity)]
    linarith [Real.exp_pos (-(m.decision metrics))]

/-- Claim C3, witness: the model of dimensionality `2` with constant
decision function `0` on the input `[0, 1]`. -/
theorem scoreAnomaly_ok_witness :
    scoreAnomaly ⟨2, fun _ => 0⟩ [0, 1] =
      (Except.ok (("normal" : String), (0 : ℝ), 1 / (1 + Real.exp (-(0 : ℝ)))),
        (⟨2, fun _ => 0⟩ : AnomalyModel)) ∧
    0 < 1 / (1 + Real.exp (-(0:ℝ))) ∧ 1 / (1 + Real.exp (-(0:ℝ))) < 1 := by
  have h := scoreAnomaly_ok ⟨2, fun _ => 0⟩ [0, 1] rfl
  refine ⟨?_, h.2.1, h.2.2⟩
  rw [h.1]
  norm_num

/-- Claim C8: for every fitted model (behavior and system detectors
alike), calling `score` with a vector whose length differs from the
trained dimensionality yields the input-validation error sklearn raises,
and the model state after the call is identical to the state before. -/
theorem scoreAnomaly_dim_mismatch (m : AnomalyModel) (metrics : List ℝ)
    (h : metrics.length ≠ m.dim) :
    scoreAnomaly m metrics = (Except.error ScoreError.dimMismatch, m) := by
  simp [scoreAnomaly, if_neg h]

/-- Claim C8, witness: a 1-vector against a model trained on 5
dimensions. -/
theorem scoreAnomaly_dim_mismatch_witness :
    scoreAnomaly ⟨5, fun _ => 0⟩ [1] =
      (Except.error ScoreError.dimMismatch, (⟨5, fun _ => 0⟩ : AnomalyModel)) := by
  exact scoreAnomaly_dim_mismatch ⟨5, fun _ => 0⟩ [1] (by decide)

/-- The dot product of a vector with itself is its sum of squares. -/
theorem dotR_self (v : List ℝ) : dotR v v = (v.map (fun x => x ^ 2)).sum := by
  induction v with
  | nil => simp [dotR]
  | cons x xs ih =>
    simp only [dotR, List.zip_cons_cons, List.map_cons, List.sum_cons] at *
    rw [ih]
    ring_nf

/-- A sum of squares is nonnegative. -/
theorem sum_sq_nonneg (v : List ℝ) : 0 ≤ (v.map (fun x => x ^ 2)).sum := by
  apply List.sum_nonneg
  intro x hx
  rcases List.mem_map.mp hx with ⟨y, _, rfl⟩
  positivity

/-- A sum of squares with a nonzero entry is positive. -/
theorem sum_sq_pos (v : List ℝ) (h : ∃ x ∈ v, x ≠ 0) :
    0 < (v.map (fun x => x ^ 2)).sum := by
  induction v with
  | nil => simp at h
  | cons y ys ih =>
    rcases h with ⟨x, hx, hxne⟩
    rcases List.mem_cons.mp hx with rfl | hx'
    · have h1 : 0 < x ^ 2 := by positivity
      have h2 : 0 ≤ (ys.map (fun x => x ^ 2)).sum := sum_sq_nonneg ys
      simp only [List.map_cons, List.sum_cons]
      linarith
    · have h1 : 0 < (ys.map (fun x => x ^ 2)).sum := ih ⟨x, hx', hxne⟩
      have h2 : 0 ≤ y ^ 2 := by positivity
      simp only [List.map_cons, List.sum_cons]
      linarith

/-- The cosine similarity of a nonzero vector with itself is exactly 1. -/
theorem cosineSim_self (v : List ℝ) (h : ∃ x ∈ v, x ≠ 0) : cosineSim v v = 1 := by
  have hS : 0 < (v.map (fun x => x ^ 2)).sum := sum_sq_pos v h
  have hnorm : normR v * normR v = (v.map (fun x => x ^ 2)).sum := by
    rw [normR, Real.mul_self_sqrt (le_of_lt hS)]
  rw [cosineSim, hnorm, if_neg (ne_of_gt hS), dotR_self, div_self (ne_of_gt hS)]

/-- Claim C2, counterexample.  The claim states that verifying a
never-before-seen user always returns `match = True` with similarity `1`.
For the sample whose three sequences are all empty, the extracted feature
vector is the zero vector, its norm product is `0`, the `or 1e-6` fallback
makes the similarity `0/1e-6 = 0`, and `match` is `False` at the default
lite threshold `0.8`. -/
theorem verify_fresh_zero_sample_cex :
    (verify emptyStore "u" zeroSample none true).1 = (false, 0, 0.8) := by
  have hv : featureVector zeroSample = [0, 0, 0, 0, 0, 0] := by
    norm_num [featureVector, zeroSample, orDefault, listMean]
  have hsim : cosineSim [(0:ℝ), 0, 0, 0, 0, 0] [0, 0, 0, 0, 0, 0] = 0 := by
    norm_num [cosineSim, normR, dotR]
  have hmatch : ¬ ((0.8 : ℝ) ≤ 0) := by norm_num
  simp [verify, emptyStore, hv, hsim, defaultThreshold, hmatch]

/-- Claim C2, amended.  For every user with no stored profile and every
sample whose extracted feature vector is nonzero, `verify` auto-enrolls
that feature vector as the user's reference and returns `match = True`
with similarity exactly `1`, for every threshold (explicit or defaulted)
not exceeding `1`. -/
theorem verify_fresh_nonzero (store : BioStore) (user : String) (s : BioSample)
    (threshold? : Option ℝ) (lite : Bool)
    (hnone : store user = none)
    (hnz : ∃ x ∈ featureVector s, x ≠ 0)
    (ht : threshold?.getD (defaultThreshold lite) ≤ 1) :
    verify store user s threshold? lite =
      ((true, 1, threshold?.getD (defaultThreshold lite)),
        setProfile store user (featureVector s)) := by
  have hsim : cosineSim (featureVector s) (featureVector s) = 1 := cosineSim_self _ hnz
  simp [verify, hnone, hsim, ht]

/-- Claim C2, witness: a fresh user with a sample holding one keystroke
timing `1.0`; the default lite threshold `0.8` applies, `match = True`,
similarity `1`, and the feature vector is stored for that user. -/
theorem verify_fresh_nonzero_witness :
    (verify emptyStore "u" oneSample none true).1 = (true, 1, 0.8) ∧
    (verify emptyStore "u" oneSample none true).2 "u" = some (featureVector oneSample) := by
  have hfv : featureVector oneSample = [1, 0, 0, 0, 0, 0] := by
    norm_num [featureVector, oneSample, orDefault, listMean]
  have h := verify_fresh_nonzero emptyStore "u" oneSample none true rfl
    ⟨1, by rw [hfv]; exact List.mem_cons_self _ _, one_ne_zero⟩
    (by norm_num [defaultThreshold])
  constructor
  · rw [h]
    norm_num [defaultThreshold]
  · rw [h]
    simp [setProfile]

/-- Claim C10: for every user that already has a stored biometric profile,
`verify` leaves the profile store untouched — that user's profile and
every other user's profile read the same after the call. -/
theorem verify_existing_frame (store : BioStore) (user : String) (s : BioSample)
    (threshold? : Option ℝ) (lite : Bool) (p : List ℝ)
    (h : store user = some p) :
    (verify store user s threshold? lite).2 = store := by
  simp [verify, h]

/-- Claim C10, witness: verifying the enrolled user `"bob"` returns the
store unchanged. -/
theorem verify_existing_frame_witness :
    (verify bobStore "bob" zeroSample none true).2 = bobStore := by
  exact verify_existing_frame bobStore "bob" zeroSample none true
    [1, 0, 0, 0, 0, 0] (by simp [bobStore])

/-- Claim C5, counterexample.  The claim states that every non-finite
value (NaN, +inf, -inf) is replaced by `0` before use.  On the sample
whose single keystroke timing is `+inf`, the code computes the mean first
(`+inf`) and only then applies `np.nan_to_num`, whose default replaces
`+inf` with the largest finite double, not `0`: the first feature is
`MAXFLOAT ≠ 0`, so the literal reading of the claim fails. -/
theorem featureVectorE_inf_cex :
    featureVectorE infSample = [MAXFLOAT, 0, 0, 0, 0, 0] ∧
    featureVectorSpecLiteral infSample = [0, 0, 0, 0, 0, 0] ∧
    featureVectorE infSample ≠ featureVectorSpecLiteral infSample := by
  have h1 : featureVectorE infSample = [MAXFLOAT, 0, 0, 0, 0, 0] := by
    norm_num [featureVectorE, infSample, orDefaultE, EF.meanE, EF.sumE, EF.add,
      EF.divNat, nanToNum]
  have h2 : featureVectorSpecLiteral infSample = [0, 0, 0, 0, 0, 0] := by
    norm_num [featureVectorSpecLiteral, infSample, specStats2, sanitize0, orDefaultE,
      EF.meanE, EF.sumE, EF.add, EF.divNat, nanToNum]
  refine ⟨h1, h2, ?_⟩
  rw [h1, h2]
  intro h
  have := List.head_eq_of_cons_eq h
  rw [MAXFLOAT] at this
  norm_num at this

/-- Claim C5, amended.  The extracted 6-dimensional feature vector is
`[mean, std]` of each of the three raw sequences in order (std `0` for at
most one element, an empty or missing sequence treated as `[0.0]`), with
the statistics computed over the raw (possibly non-finite) values and
`np.nan_to_num`'s default sanitisation applied to the aggregated results:
NaN becomes `0` and `±inf` becomes `±MAXFLOAT`, the largest finite
double. -/
theorem featureVectorE_spec (s : BioSampleE) :
    featureVectorE s = featureVectorSpecAmended s := by
  simp [featureVectorE, featureVectorSpecAmended, specStats2]

/-- Claim C6, counterexample.  The claim states that a predicted phishing
probability of exactly `0.5` is classified as non-phishing.  With a
classifier returning exactly `1/2` on a non-empty url, the route returns
`is_phishing = true`: the code's boundary is `prob >= 0.5`. -/
theorem scanPhishing_half_cex :
    scanPhishing (fun _ _ => 1/2) (some "http://x") none =
      Except.ok ⟨1/2, true⟩ := by
  have hb : decide ((1/2 : ℚ) ≤ 1/2) = true := by norm_num
  simp [scanPhishing, truthyStr, hb]

/-- Claim C6, amended.  Whenever at least one of `url`, `text` is a
non-empty string, the scan returns the classifier probability with
`is_phishing = (probability ≥ 0.5)`: exactly `0.5` is classified as
phishing, and probabilities strictly below `0.5` yield
`is_phishing = false`. -/
theorem scanPhishing_boundary (score : Option String → Option String → ℚ)
    (url text : Option String)
    (h : truthyStr url = true ∨ truthyStr text = true) :
    scanPhishing score url text =
      Except.ok ⟨score url text, decide ((1/2 : ℚ) ≤ score url text)⟩ ∧
    (decide ((1/2 : ℚ) ≤ score url text) = true ↔ (1/2 : ℚ) ≤ score url text) := by
  constructor
  · rcases h with h | h <;> simp [scanPhishing, h]
  · exact decide_eq_true_iff

/-- Claim C6, witness: a classifier probability of `1/4` on a non-empty
url is below the boundary, so `is_phishing` is `false`. -/
theorem scanPhishing_boundary_witness :
    scanPhishing (fun _ _ => 1/4) (some "a") none = Except.ok ⟨1/4, false⟩ := by
  have h := scanPhishing_boundary (fun _ _ => 1/4) (some "a") none
    (Or.inl (by simp [truthyStr]))
  rw [h.1]
  have hb : decide ((1/2 : ℚ) ≤ 1/4) = false := by norm_num
  rw [hb]

end Guardix
